import Mathlib

/-!
Verification of the mail-merge pipeline in `serienbrief_pdf.py`.

Strings are modelled as `List Char` (`Str`).  The pure placeholder
expander `expand_filename_template` is embedded directly from the source
(lines 51-69).  Python's `str.replace` (leftmost, non-overlapping) is
modelled by `replaceL`, and the `in` substring test by `occursL`.  The
source only ever calls `replace` with the nonempty pattern
`"\x7b" + key + "\x7d"`; `replaceL` guards the empty-pattern case (where
Python's semantics differ) so that it terminates on all inputs, but that
case is never reached from the embedded program.

Cell values of the parsed table are modelled by `Cell`: pandas with
`dtype=str` keeps every present field as a string but represents a
missing field by the float NaN sentinel, which Python's `str` renders as
"nan".
-/

abbrev Str := List Char

inductive Cell where
  | str (v : Str)
  | nan
deriving DecidableEq

/-- Python `str(value)` on a cell value: a string renders as itself, the
pandas NaN sentinel renders as "nan". -/
def Cell.toStr : Cell → Str
  | .str v => v
  | .nan => ("nan").data

/-- The literal placeholder text built at line 66 of the source:
`placeholder = f"\x7b\x7bkey\x7d\x7d"`, i.e. an opening brace, the key,
a closing brace. -/
def placeholderOf (key : Str) : Str := '{' :: (key ++ ['}'])

/-- Python's substring test `p in s`. -/
def occursL (p : Str) : Str → Bool
  | [] => p.isPrefixOf []
  | c :: rest => p.isPrefixOf (c :: rest) || occursL p rest

/-- Scanning worker for `replaceL`, structurally recursive on a fuel
that bounds the remaining length (each step consumes at least one
character, so one unit of fuel per character suffices). -/
def replaceGo (p v : Str) : Nat → Str → Str
  | _, [] => []
  | 0, s => s
  | Nat.succ fuel, c :: rest =>
    if p.isPrefixOf (c :: rest) && !p.isEmpty then
      v ++ replaceGo p v fuel ((c :: rest).drop p.length)
    else
      c :: replaceGo p v fuel rest

/-- Python's `s.replace(p, v)` for nonempty `p`: scan left to right; at
each position, if `p` matches, emit `v` and skip past the match,
otherwise keep the character.  (For `p = []` Python would interleave `v`
between all characters; the embedded program never calls `replace` with
an empty pattern, so this model returns `s` unchanged there.) -/
def replaceL (p v : Str) (s : Str) : Str := replaceGo p v s.length s

/-- The scan result does not depend on the fuel once the fuel covers the
string length. -/
theorem replaceGo_fuel (p v : Str) (n m : Nat) (s : Str)
    (hn : s.length ≤ n) (hm : s.length ≤ m) :
    replaceGo p v n s = replaceGo p v m s := by
  induction n generalizing m s with
  | zero =>
    have : s = [] := List.eq_nil_of_length_eq_zero (Nat.le_zero.mp hn)
    subst this
    cases m <;> rfl
  | succ n' ih =>
    cases s with
    | nil => cases m <;> rfl
    | cons c rest =>
      cases m with
      | zero => exact absurd hm (by simp)
      | succ m' =>
        rw [replaceGo, replaceGo]
        by_cases hcond : (p.isPrefixOf (c :: rest) && !p.isEmpty) = true
        · rw [if_pos hcond, if_pos hcond]
          have hp : 0 < p.length := by
            have hemp : p.isEmpty = false := by
              have h2 := hcond
              simp only [Bool.and_eq_true, Bool.not_eq_true'] at h2
              exact h2.2
            cases p with
            | nil => simp at hemp
            | cons a q => simp
          have hlen : ((c :: rest).drop p.length).length ≤ n' := by
            simp only [List.length_drop, List.length_cons]
            simp only [List.length_cons] at hn
            omega
          have hlen' : ((c :: rest).drop p.length).length ≤ m' := by
            simp only [List.length_drop, List.length_cons]
            simp only [List.length_cons] at hm
            omega
          rw [ih m' _ hlen hlen']
        · rw [if_neg hcond, if_neg hcond]
          have hlen : rest.length ≤ n' := by
            simp only [List.length_cons] at hn
            omega
          have hlen' : rest.length ≤ m' := by
            simp only [List.length_cons] at hm
            omega
          rw [ih m' rest hlen hlen']

theorem replaceL_cons_pos (p v : Str) (c : Char) (rest : Str)
    (h1 : p.isPrefixOf (c :: rest) = true) (h2 : p ≠ []) :
    replaceL p v (c :: rest) = v ++ replaceL p v ((c :: rest).drop p.length) := by
  show replaceGo p v (c :: rest).length (c :: rest) = _
  rw [show (c :: rest).length = rest.length + 1 from rfl, replaceGo, if_pos]
  · rw [replaceGo_fuel p v rest.length ((c :: rest).drop p.length).length
      ((c :: rest).drop p.length) ?h1 (Nat.le_refl _)]
    · rfl
    case h1 =>
      have hp : 0 < p.length := List.length_pos.mpr h2
      simp only [List.length_drop, List.length_cons]
      omega
  · rw [h1]
    simp only [Bool.true_and, Bool.not_eq_true']
    simpa using h2

theorem replaceL_cons_neg (p v : Str) (c : Char) (rest : Str)
    (h : p.isPrefixOf (c :: rest) = false) :
    replaceL p v (c :: rest) = c :: replaceL p v rest := by
  show replaceGo p v (c :: rest).length (c :: rest) = _
  rw [show (c :: rest).length = rest.length + 1 from rfl, replaceGo, if_neg]
  · rfl
  · rw [h]
    simp

/-- Direct embedding of `expand_filename_template` (source lines 64-69):
fold over the context items in order; for each key, if the placeholder
occurs in the working string, replace every occurrence by the
stringified value. -/
def expand_filename_template (template_str : Str) (context : List (Str × Cell)) : Str :=
  context.foldl (fun result kv =>
    if occursL (placeholderOf kv.1) result then
      replaceL (placeholderOf kv.1) (Cell.toStr kv.2) result
    else result) template_str

/-- Variant of the expander described by claim C10: the membership guard
is dropped and `replace` is applied unconditionally for every key. -/
def expandUnconditional (template_str : Str) (context : List (Str × Cell)) : Str :=
  context.foldl (fun result kv =>
    replaceL (placeholderOf kv.1) (Cell.toStr kv.2) result) template_str

theorem placeholderOf_ne_nil (k : Str) : placeholderOf k ≠ [] := by
  simp [placeholderOf]

theorem replaceL_nil (p v : Str) : replaceL p v [] = [] := rfl

theorem replaceL_of_not_occurs (p v : Str) (s : Str) (h : occursL p s = false) :
    replaceL p v s = s := by
  induction s with
  | nil => exact replaceL_nil p v
  | cons c rest ih =>
    rw [occursL, Bool.or_eq_false_iff] at h
    rw [replaceL_cons_neg p v c rest h.1, ih h.2]

theorem expand_eq_unconditional (t : Str) (ctx : List (Str × Cell)) :
    expand_filename_template t ctx = expandUnconditional t ctx := by
  induction ctx generalizing t with
  | nil => rfl
  | cons kv rest ih =>
    show List.foldl _ (if occursL (placeholderOf kv.1) t then _ else t) rest = _
    by_cases hocc : occursL (placeholderOf kv.1) t = true
    · rw [if_pos hocc]
      exact ih _
    · rw [if_neg hocc]
      have hid := replaceL_of_not_occurs (placeholderOf kv.1) (Cell.toStr kv.2) t
        (Bool.not_eq_true _ ▸ hocc)
      calc List.foldl _ t rest
          = expand_filename_template t rest := rfl
        _ = expandUnconditional t rest := ih t
        _ = List.foldl _ (replaceL (placeholderOf kv.1) (Cell.toStr kv.2) t) rest := by
            rw [hid]
            rfl

/-!
A well-formed filename template decomposes into brace-free literal
segments and `\x7bkey\x7d` tokens.  On such templates (with brace-free
keys and values) the expander behaves like simultaneous substitution:
each token whose key is bound in the context becomes that key's value,
all other tokens stay verbatim.  This is the sense in which the spec's
statements about "every occurrence is replaced", "unknown tokens left
verbatim" and order independence hold; outside it they can fail, as the
counterexamples below show.
-/

inductive Seg where
  | lit (s : Str)
  | tok (k : Str)
deriving DecidableEq

def Seg.render : Seg → Str
  | .lit s => s
  | .tok k => placeholderOf k

def renderShape : List Seg → Str
  | [] => []
  | seg :: rest => seg.render ++ renderShape rest

def braceFree (s : Str) : Bool := s.all (fun c => c != '{' && c != '}')

def Seg.wf : Seg → Bool
  | .lit s => braceFree s
  | .tok k => braceFree k

def shapeWF (sh : List Seg) : Bool := sh.all Seg.wf

def cellBraceFree : Cell → Bool
  | .str v => braceFree v
  | .nan => true

def ctxWF (ctx : List (Str × Cell)) : Bool :=
  ctx.all (fun kv => braceFree kv.1 && cellBraceFree kv.2)

/-- Substitute one key: every `tok k` becomes the literal `v`. -/
def substK (k v : Str) (sh : List Seg) : List Seg :=
  sh.map (fun seg => match seg with
    | .lit s => .lit s
    | .tok j => if j = k then .lit v else .tok j)

/-- Simultaneous substitution along a lookup function. -/
def substAll (f : Str → Option Str) (sh : List Seg) : List Seg :=
  sh.map (fun seg => match seg with
    | .lit s => .lit s
    | .tok j => match f j with
      | some v => Seg.lit v
      | none => Seg.tok j)

/-- Value a context associates to a key (first binding wins, stringified),
mirroring Python dict lookup on the insertion-ordered item list. -/
def lookupStr (k : Str) : List (Str × Cell) → Option Str
  | [] => none
  | kv :: rest => if kv.1 = k then some (Cell.toStr kv.2) else lookupStr k rest

theorem braceFree_mem {s : Str} (h : braceFree s = true) {c : Char} (hc : c ∈ s) :
    c ≠ '{' ∧ c ≠ '}' := by
  have := List.all_eq_true.mp h c hc
  simp only [Bool.and_eq_true, bne_iff_ne] at this
  exact this

theorem cellBraceFree_toStr {v : Cell} (h : cellBraceFree v = true) :
    braceFree (Cell.toStr v) = true := by
  cases v with
  | str s => exact h
  | nan => decide

/-- Scanning passes unchanged through characters that are not an opening
brace, since every placeholder starts with one. -/
theorem replaceL_append_noLBrace (q v : Str) (l r : Str)
    (hl : ∀ c ∈ l, c ≠ '{') :
    replaceL ('{' :: q) v (l ++ r) = l ++ replaceL ('{' :: q) v r := by
  induction l with
  | nil => rfl
  | cons c l' ih =>
    have hc : c ≠ '{' := hl c (by simp)
    have hpre : ('{' :: q).isPrefixOf (c :: (l' ++ r)) = false := by
      simp only [List.isPrefixOf, Bool.and_eq_false_iff]
      left
      exact beq_eq_false_iff_ne.mpr (fun hb => hc hb.symm)
    rw [List.cons_append, replaceL_cons_neg _ _ _ _ hpre,
      ih (fun d hd => hl d (by simp [hd]))]
    rfl

/-- A placeholder of key `k` never matches at a token of a different
brace-free key `j`: the closing brace of `k`'s placeholder cannot line
up inside `j` or at its closing brace. -/
theorem key_mismatch (j k : Str) (r : Str)
    (hj : ∀ c ∈ j, c ≠ '}') (hk : ∀ c ∈ k, c ≠ '}') (hne : j ≠ k) :
    (k ++ ['}']).isPrefixOf (j ++ '}' :: r) = false := by
  induction k generalizing j with
  | nil =>
    cases j with
    | nil => exact absurd rfl hne
    | cons b j' =>
      simp only [List.nil_append, List.cons_append, List.isPrefixOf, Bool.and_eq_false_iff]
      left
      exact beq_eq_false_iff_ne.mpr (fun hb => (hj b (by simp)) hb.symm)
  | cons a k' ih =>
    cases j with
    | nil =>
      simp only [List.nil_append, List.cons_append, List.isPrefixOf, Bool.and_eq_false_iff]
      left
      exact beq_eq_false_iff_ne.mpr (hk a (by simp))
    | cons b j' =>
      by_cases hab : a = b
      · subst hab
        simp only [List.cons_append, List.isPrefixOf, beq_self_eq_true, Bool.true_and]
        exact ih j' (fun c hc => hj c (by simp [hc])) (fun c hc => hk c (by simp [hc]))
          (fun hcon => hne (by rw [hcon]))
      · simp only [List.cons_append, List.isPrefixOf, Bool.and_eq_false_iff]
        left
        exact beq_eq_false_iff_ne.mpr hab

/-- Scanning steps over one character that is not an opening brace. -/
theorem replaceL_cons_noLBrace (q v : Str) (c : Char) (r : Str) (hc : c ≠ '{') :
    replaceL ('{' :: q) v (c :: r) = c :: replaceL ('{' :: q) v r := by
  have := replaceL_append_noLBrace q v [c] r (by simpa using hc)
  simpa using this

/-- Scanning passes unchanged over a whole token of a different key. -/
theorem replaceL_tok_ne (j k v r : Str)
    (hj : braceFree j = true) (hk : braceFree k = true) (hne : j ≠ k) :
    replaceL (placeholderOf k) v (placeholderOf j ++ r) =
      placeholderOf j ++ replaceL (placeholderOf k) v r := by
  have hshape : placeholderOf j ++ r = '{' :: (j ++ '}' :: r) := by
    simp [placeholderOf]
  simp only [placeholderOf] at hshape ⊢
  have hpre : ('{' :: (k ++ ['}'])).isPrefixOf ('{' :: (j ++ '}' :: r)) = false := by
    simp only [List.isPrefixOf, beq_self_eq_true, Bool.true_and]
    exact key_mismatch j k r (fun c hc => (braceFree_mem hj hc).2)
      (fun c hc => (braceFree_mem hk hc).2) hne
  rw [hshape, replaceL_cons_neg _ _ _ _ hpre]
  rw [replaceL_append_noLBrace (k ++ ['}']) v j ('}' :: r)
    (fun c hc => (braceFree_mem hj hc).1)]
  rw [replaceL_cons_noLBrace (k ++ ['}']) v '}' r (by decide)]
  simp

/-- Scanning at an exact placeholder occurrence replaces it and resumes
after it. -/
theorem replaceL_self (p v r : Str) (hp : p ≠ []) :
    replaceL p v (p ++ r) = v ++ replaceL p v r := by
  cases p with
  | nil => exact absurd rfl hp
  | cons a q =>
    have hpre : (a :: q).isPrefixOf (a :: (q ++ r)) = true := by
      rw [← List.cons_append, List.isPrefixOf_iff_prefix]
      exact List.prefix_append (a :: q) r
    rw [List.cons_append, replaceL_cons_pos (a :: q) v a (q ++ r) hpre (by simp)]
    rw [← List.cons_append, List.drop_left]

/-- One `replace` pass on a well-formed rendered shape substitutes
exactly the tokens of that key. -/
theorem replaceL_render (k v : Str) (sh : List Seg)
    (hk : braceFree k = true) (hsh : shapeWF sh = true) :
    replaceL (placeholderOf k) v (renderShape sh) = renderShape (substK k v sh) := by
  induction sh with
  | nil => exact replaceL_nil _ _
  | cons seg rest ih =>
    have hseg : Seg.wf seg = true := List.all_eq_true.mp hsh seg (by simp)
    have hrest : shapeWF rest = true :=
      List.all_eq_true.mpr (fun s hs => List.all_eq_true.mp hsh s (by simp [hs]))
    cases seg with
    | lit s =>
      have hs : braceFree s = true := hseg
      have hsub : substK k v (Seg.lit s :: rest) = Seg.lit s :: substK k v rest := rfl
      rw [hsub]
      show replaceL (placeholderOf k) v (s ++ renderShape rest) =
        s ++ renderShape (substK k v rest)
      rw [show placeholderOf k = '{' :: (k ++ ['}']) from rfl,
        replaceL_append_noLBrace (k ++ ['}']) v s (renderShape rest)
          (fun c hc => (braceFree_mem hs hc).1)]
      exact congrArg (s ++ ·) (ih hrest)
    | tok j =>
      have hjw : braceFree j = true := hseg
      by_cases hjk : j = k
      · subst hjk
        have hsub : substK j v (Seg.tok j :: rest) = Seg.lit v :: substK j v rest := by
          simp [substK]
        rw [hsub]
        show replaceL (placeholderOf j) v (placeholderOf j ++ renderShape rest) =
          v ++ renderShape (substK j v rest)
        rw [replaceL_self (placeholderOf j) v (renderShape rest) (placeholderOf_ne_nil j)]
        exact congrArg (v ++ ·) (ih hrest)
      · have hsub : substK k v (Seg.tok j :: rest) = Seg.tok j :: substK k v rest := by
          simp [substK, hjk]
        rw [hsub]
        show replaceL (placeholderOf k) v (placeholderOf j ++ renderShape rest) =
          placeholderOf j ++ renderShape (substK k v rest)
        rw [replaceL_tok_ne j k v (renderShape rest) hjw hk hjk]
        exact congrArg (placeholderOf j ++ ·) (ih hrest)

theorem substK_wf (k v : Str) (sh : List Seg)
    (hv : braceFree v = true) (hsh : shapeWF sh = true) :
    shapeWF (substK k v sh) = true := by
  induction sh with
  | nil => rfl
  | cons seg rest ih =>
    have hseg : Seg.wf seg = true := List.all_eq_true.mp hsh seg (by simp)
    have hrest : shapeWF rest = true :=
      List.all_eq_true.mpr (fun s hs => List.all_eq_true.mp hsh s (by simp [hs]))
    cases seg with
    | lit s =>
      simp only [substK, List.map_cons, shapeWF, List.all_cons, Bool.and_eq_true]
      exact ⟨hseg, ih hrest⟩
    | tok j =>
      by_cases hjk : j = k
      · simp only [substK, List.map_cons, if_pos hjk, shapeWF, List.all_cons,
          Bool.and_eq_true]
        exact ⟨hv, ih hrest⟩
      · simp only [substK, List.map_cons, if_neg hjk, shapeWF, List.all_cons,
          Bool.and_eq_true]
        exact ⟨hseg, ih hrest⟩

theorem substAll_none (sh : List Seg) : substAll (fun _ => none) sh = sh := by
  induction sh with
  | nil => rfl
  | cons seg rest ih =>
    cases seg <;> simp only [substAll, List.map_cons] at * <;> rw [ih]

theorem substAll_substK (k : Str) (v : Cell) (rest : List (Str × Cell)) (sh : List Seg) :
    substAll (fun j => lookupStr j rest) (substK k (Cell.toStr v) sh) =
      substAll (fun j => lookupStr j ((k, v) :: rest)) sh := by
  unfold substAll substK
  rw [List.map_map]
  apply List.map_congr_left
  intro seg _
  cases seg with
  | lit s => rfl
  | tok j =>
    by_cases hjk : j = k
    · subst hjk
      simp [Function.comp, lookupStr]
    · simp [Function.comp, lookupStr, hjk, if_neg (Ne.symm hjk)]

/-- Key structural theorem: on a well-formed template shape with a
well-formed context, the expander computes the simultaneous substitution
of every bound token, leaving unbound tokens verbatim. -/
theorem expand_render (sh : List Seg) (ctx : List (Str × Cell))
    (hsh : shapeWF sh = true) (hctx : ctxWF ctx = true) :
    expand_filename_template (renderShape sh) ctx =
      renderShape (substAll (fun k => lookupStr k ctx) sh) := by
  rw [expand_eq_unconditional]
  induction ctx generalizing sh with
  | nil =>
    rw [show (fun k : Str => lookupStr k ([] : List (Str × Cell))) = (fun _ => none)
      from funext (fun k => rfl), substAll_none]
    rfl
  | cons kv rest ih =>
    have hkv : (braceFree kv.1 && cellBraceFree kv.2) = true :=
      List.all_eq_true.mp hctx kv (by simp)
    have hkv' : braceFree kv.1 = true ∧ cellBraceFree kv.2 = true := by
      simpa using hkv
    have hv : braceFree (Cell.toStr kv.2) = true := cellBraceFree_toStr hkv'.2
    have hrest : ctxWF rest = true :=
      List.all_eq_true.mpr (fun x hx => List.all_eq_true.mp hctx x (by simp [hx]))
    show expandUnconditional
      (replaceL (placeholderOf kv.1) (Cell.toStr kv.2) (renderShape sh)) rest = _
    rw [replaceL_render kv.1 (Cell.toStr kv.2) sh hkv'.1 hsh]
    rw [ih (substK kv.1 (Cell.toStr kv.2) sh)
      (substK_wf kv.1 (Cell.toStr kv.2) sh hv hsh) hrest]
    exact congrArg renderShape (substAll_substK kv.1 kv.2 rest sh)

/-- Lookup in a duplicate-free association list is invariant under
permutation (a Python dict has distinct keys, so its item list is such a
list). -/
theorem lookupStr_perm (ctx ctx' : List (Str × Cell)) (hperm : ctx.Perm ctx')
    (hnd : (ctx.map Prod.fst).Nodup) (k : Str) : lookupStr k ctx = lookupStr k ctx' := by
  induction hperm with
  | nil => rfl
  | @cons x l₁ l₂ p ih =>
    have hnd' : x.1 ∉ List.map Prod.fst l₁ ∧ (List.map Prod.fst l₁).Nodup := by
      rw [List.map_cons, List.nodup_cons] at hnd
      exact hnd
    show (if x.1 = k then _ else lookupStr k _) = (if x.1 = k then _ else lookupStr k _)
    by_cases hx : x.1 = k
    · rw [if_pos hx, if_pos hx]
    · rw [if_neg hx, if_neg hx]
      exact ih hnd'.2
  | @swap x y l =>
    have hnd' : y.1 ∉ List.map Prod.fst (x :: l) ∧ (List.map Prod.fst (x :: l)).Nodup := by
      rw [List.map_cons, List.nodup_cons] at hnd
      exact hnd
    have hxy : y.1 ≠ x.1 := by
      intro hcon
      apply hnd'.1
      rw [hcon, List.map_cons]
      exact List.mem_cons_self _ _
    show (if y.1 = k then _ else if x.1 = k then _ else lookupStr k l) =
      (if x.1 = k then _ else if y.1 = k then _ else lookupStr k l)
    by_cases hy : y.1 = k
    · rw [if_pos hy, if_neg (fun hx => hxy (hy.trans hx.symm)), if_pos hy]
    · by_cases hx : x.1 = k
      · rw [if_neg hy, if_pos hx, if_pos hx]
      · rw [if_neg hy, if_neg hx, if_neg hx, if_neg hy]
  | trans p₁ p₂ ih₁ ih₂ =>
    rw [ih₁ hnd, ih₂ (((p₁.map Prod.fst).nodup_iff).mp hnd)]

theorem ctxWF_perm (ctx ctx' : List (Str × Cell)) (hperm : ctx.Perm ctx')
    (hctx : ctxWF ctx = true) : ctxWF ctx' = true :=
  List.all_eq_true.mpr (fun x hx =>
    List.all_eq_true.mp hctx x (hperm.mem_iff.mpr hx))

/-- If `p` is a prefix of `s` then `p` occurs in `s`. -/
theorem occursL_of_isPrefixOf (p s : Str) (h : p.isPrefixOf s = true) :
    occursL p s = true := by
  cases s with
  | nil => exact h
  | cons c rest =>
    rw [occursL, h]
    rfl

/-- A substring placed between two other strings occurs in the whole. -/
theorem occursL_append_self (p a b : Str) : occursL p (a ++ (p ++ b)) = true := by
  induction a with
  | nil =>
    rw [List.nil_append]
    exact occursL_of_isPrefixOf p (p ++ b) (by
      rw [List.isPrefixOf_iff_prefix]
      exact List.prefix_append p b)
  | cons c a' ih =>
    rw [List.cons_append, occursL, ih]
    simp

/-!
Model of the batch run triggered by the generate button (source lines
114-163).  Document bytes are opaque (`Bytes`); the external renderer
`generate_doc` (docxtpl) is a parameter that either returns bytes or
raises (an exception modelled as `Except.error`).  `read_csv` models
`pd.read_csv(csv_file, sep=';', dtype=str)` as used at line 123 of the
source: semicolon-delimited lines, a mandatory header line defining the
column set, blank lines skipped, every present field kept as a string,
an empty field parsed as the NaN sentinel (pandas' default NA handling;
its other default NA tokens and quoting rules are not exercised here),
short rows padded with NaN, over-long rows a parse error, a file with no
lines a parse error (EmptyDataError).  All of these surface as the
caught-and-reported error branch of lines 124-126.
-/

abbrev Bytes := List Nat

deriving instance DecidableEq for Except

/-- Outcome of one button press: warning (line 117), CSV error
(line 125), an exception escaping from `generate_doc` for a row (whole
batch aborts, nothing surfaced), or success with the archive entries in
write order (lines 157-163). -/
inductive Outcome where
  | warnedMissing
  | csvError
  | renderFailure (i : Nat)
  | success (archive : List (Str × Bytes))
deriving DecidableEq

def splitOnChar (c : Char) : Str → List Str
  | [] => [[]]
  | a :: rest =>
    match splitOnChar c rest with
    | [] => if a = c then [[], []] else [[a]]
    | g :: gs => if a = c then [] :: g :: gs else (a :: g) :: gs

/-- One raw field: empty means missing, hence NaN under pandas' default
NA handling; anything else is kept verbatim as a string (dtype=str). -/
def parseField (f : Str) : Cell := if f = [] then Cell.nan else Cell.str f

/-- One data line against a header of `ncols` columns: more fields than
columns is a tokenizing error; fewer are padded with NaN. -/
def parseRow (ncols : Nat) (line : Str) : Except Unit (List Cell) :=
  let fields := splitOnChar ';' line
  if ncols < fields.length then .error ()
  else .ok (fields.map parseField ++ List.replicate (ncols - fields.length) Cell.nan)

def parseRows (ncols : Nat) : List Str → Except Unit (List (List Cell))
  | [] => .ok []
  | l :: ls =>
    match parseRow ncols l with
    | .error e => .error e
    | .ok r =>
      match parseRows ncols ls with
      | .error e => .error e
      | .ok rs => .ok (r :: rs)

/-- Model of `pd.read_csv(csv_file, sep=';', dtype=str)` as used by the
source: header line then data rows. -/
def read_csv (content : Str) : Except Unit (List Str × List (List Cell)) :=
  match (splitOnChar '\n' content).filter (fun l => l ≠ []) with
  | [] => .error ()
  | header :: dataLines =>
    let cols := splitOnChar ';' header
    match parseRows cols.length dataLines with
    | .error e => .error e
    | .ok rows => .ok (cols, rows)

/-- Python `str.strip()` whitespace set, restricted to the ASCII range
(the only whitespace the pipeline's inputs exercise). -/
def pyWhitespace (c : Char) : Bool :=
  c = ' ' || c = '\t' || c = '\n' || c = '\r' || c = '\x0b' || c = '\x0c'

/-- Line 140: `not filename_prefix.strip()` — true iff every character
is whitespace (in particular for the empty string). -/
def isBlank (s : Str) : Bool := s.all pyWhitespace

/-- Line 141: the fallback entry name `f"Eintrag_\x7bindex\x7d"`. -/
def eintragFallback (index : Nat) : Str := ("Eintrag_").data ++ (toString index).data

/-- The name of the archive entry for the row at position `index`
(lines 137-148): expand the filename template against the row context,
fall back to `Eintrag_\x7bindex\x7d` when blank, append ".docx". -/
def entryName (ftpl : Str) (cols : List Str) (index : Nat) (cells : List Cell) : Str :=
  let expanded := expand_filename_template ftpl (cols.zip cells)
  (if isBlank expanded then eintragFallback index else expanded) ++ (".docx").data

/-- The loop of lines 132-149: one archive entry per row, in row order;
an error from the renderer aborts everything (the exception propagates
out of `main`). -/
def processRows (render : Bytes → List (Str × Cell) → Except Unit Bytes)
    (tpl : Bytes) (ftpl : Str) (cols : List Str) :
    List (List Cell) → Nat → List (Str × Bytes) → Outcome
  | [], _, acc => .success acc.reverse
  | cells :: rest, index, acc =>
    let context := cols.zip cells
    match render tpl context with
    | .error _ => .renderFailure index
    | .ok docx_bytes =>
      processRows render tpl ftpl cols rest (index + 1)
        ((entryName ftpl cols index cells, docx_bytes) :: acc)

/-- The generate-button handler, lines 114-163: warn when either upload
is missing, report a CSV parse error, otherwise run the row loop. -/
def mainGenerate (render : Bytes → List (Str × Cell) → Except Unit Bytes)
    (uploaded_template : Option Bytes) (csv_file : Option Str)
    (filename_template : Str) : Outcome :=
  match uploaded_template, csv_file with
  | some tpl, some csvText =>
    match read_csv csvText with
    | .error _ => .csvError
    | .ok (cols, rows) => processRows render tpl filename_template cols rows 0 []
  | _, _ => .warnedMissing

/-- Wrap a total renderer as one that never raises. -/
def okWrap (renderOk : Bytes → List (Str × Cell) → Bytes) :
    Bytes → List (Str × Cell) → Except Unit Bytes :=
  fun tpl ctx => .ok (renderOk tpl ctx)

/-- The archive the loop produces from `rows` when rendering never
fails, starting at row position `index`. -/
def archiveFrom (renderOk : Bytes → List (Str × Cell) → Bytes)
    (tpl : Bytes) (ftpl : Str) (cols : List Str) :
    List (List Cell) → Nat → List (Str × Bytes)
  | [], _ => []
  | cells :: rest, index =>
    (entryName ftpl cols index cells, renderOk tpl (cols.zip cells)) ::
      archiveFrom renderOk tpl ftpl cols rest (index + 1)

theorem processRows_ok (renderOk : Bytes → List (Str × Cell) → Bytes)
    (tpl : Bytes) (ftpl : Str) (cols : List Str) (rows : List (List Cell))
    (index : Nat) (acc : List (Str × Bytes)) :
    processRows (okWrap renderOk) tpl ftpl cols rows index acc =
      .success (acc.reverse ++ archiveFrom renderOk tpl ftpl cols rows index) := by
  induction rows generalizing index acc with
  | nil => simp [processRows, archiveFrom]
  | cons cells rest ih =>
    show processRows _ _ _ _ _ _ _ = _
    rw [processRows]
    show processRows _ _ _ _ rest (index + 1) _ = _
    rw [ih (index + 1)]
    simp [archiveFrom]

theorem archiveFrom_length (renderOk : Bytes → List (Str × Cell) → Bytes)
    (tpl : Bytes) (ftpl : Str) (cols : List Str) (rows : List (List Cell))
    (index : Nat) :
    (archiveFrom renderOk tpl ftpl cols rows index).length = rows.length := by
  induction rows generalizing index with
  | nil => rfl
  | cons cells rest ih =>
    rw [archiveFrom, List.length_cons, List.length_cons, ih (index + 1)]

theorem archiveFrom_getElem? (renderOk : Bytes → List (Str × Cell) → Bytes)
    (tpl : Bytes) (ftpl : Str) (cols : List Str) (rows : List (List Cell))
    (index j : Nat) (cells : List Cell) (hj : rows[j]? = some cells) :
    (archiveFrom renderOk tpl ftpl cols rows index)[j]? =
      some (entryName ftpl cols (index + j) cells, renderOk tpl (cols.zip cells)) := by
  induction rows generalizing index j with
  | nil => simp at hj
  | cons c rest ih =>
    cases j with
    | zero =>
      simp only [List.getElem?_cons_zero, Option.some.injEq] at hj
      subst hj
      simp [archiveFrom]
    | succ j' =>
      simp only [List.getElem?_cons_succ] at hj
      rw [archiveFrom]
      simp only [List.getElem?_cons_succ]
      rw [ih (index + 1) j' hj]
      have : index + 1 + j' = index + (j' + 1) := by omega
      rw [this]

theorem parseRow_length (ncols : Nat) (line : Str) (r : List Cell)
    (h : parseRow ncols line = .ok r) : r.length = ncols := by
  unfold parseRow at h
  by_cases hlt : ncols < (splitOnChar ';' line).length
  · rw [if_pos hlt] at h
    exact absurd h (by simp)
  · rw [if_neg hlt] at h
    have hr : (splitOnChar ';' line).map parseField ++
        List.replicate (ncols - (splitOnChar ';' line).length) Cell.nan = r := by
      simpa using h
    rw [← hr]
    simp only [List.length_append, List.length_map, List.length_replicate]
    omega

theorem parseRows_length (ncols : Nat) (ls : List Str) (rows : List (List Cell))
    (h : parseRows ncols ls = .ok rows) :
    ∀ r ∈ rows, r.length = ncols := by
  induction ls generalizing rows with
  | nil =>
    have : rows = [] := by
      simpa [parseRows] using h.symm
    subst this
    intro r hr
    exact absurd hr (by simp)
  | cons l ls' ih =>
    unfold parseRows at h
    cases h1 : parseRow ncols l with
    | error e => rw [h1] at h; exact absurd h (by simp)
    | ok r0 =>
      rw [h1] at h
      cases h2 : parseRows ncols ls' with
      | error e => rw [h2] at h; exact absurd h (by simp)
      | ok rs =>
        rw [h2] at h
        have : r0 :: rs = rows := by simpa using h
        subst this
        intro r hr
        rcases List.mem_cons.mp hr with hr0 | hrs
        · subst hr0
          exact parseRow_length ncols l r h1
        · exact ih rs h2 r hrs

/-- Everything `read_csv` accepts has every row exactly as long as the
header's column list. -/
theorem read_csv_row_length (content : Str) (cols : List Str) (rows : List (List Cell))
    (h : read_csv content = .ok (cols, rows)) :
    ∀ r ∈ rows, r.length = cols.length := by
  unfold read_csv at h
  cases hl : (splitOnChar '\n' content).filter (fun l => l ≠ []) with
  | nil => rw [hl] at h; exact absurd h (by simp)
  | cons header dataLines =>
    rw [hl] at h
    cases h2 : parseRows (splitOnChar ';' header).length dataLines with
    | error e =>
      simp only [h2] at h
      exact absurd h (by simp)
    | ok rs =>
      simp only [h2] at h
      have hcols : splitOnChar ';' header = cols ∧ rs = rows := by
        have := h
        simp only [Except.ok.injEq, Prod.mk.injEq] at this
        exact this
      rw [← hcols.1, ← hcols.2] at *
      exact parseRows_length _ dataLines rs h2

/-- If rendering succeeds on every row before position `j` and raises at
position `j`, the loop aborts with that exception and never reaches any
later row (the statement constrains the renderer at rows up to `j`
only). -/
theorem processRows_fail (render : Bytes → List (Str × Cell) → Except Unit Bytes)
    (tpl : Bytes) (ftpl : Str) (cols : List Str) (rows : List (List Cell))
    (index : Nat) (acc : List (Str × Bytes)) (j : Nat) (hj : j < rows.length)
    (hbefore : ∀ m r, m < j → rows[m]? = some r → ∃ b, render tpl (cols.zip r) = .ok b)
    (hfail : ∀ r, rows[j]? = some r → render tpl (cols.zip r) = .error ()) :
    processRows render tpl ftpl cols rows index acc = .renderFailure (index + j) := by
  induction rows generalizing index acc j with
  | nil => exact absurd hj (by simp)
  | cons cells rest ih =>
    cases j with
    | zero =>
      have hf : render tpl (cols.zip cells) = .error () := hfail cells (by simp)
      simp [processRows, hf]
    | succ j' =>
      obtain ⟨b, hb⟩ := hbefore 0 cells (by omega) (by simp)
      have hstep : processRows render tpl ftpl cols (cells :: rest) index acc =
          processRows render tpl ftpl cols rest (index + 1)
            ((entryName ftpl cols index cells, b) :: acc) := by
        simp [processRows, hb]
      rw [hstep]
      have hrec := ih (index + 1) ((entryName ftpl cols index cells, b) :: acc) j'
        (by simpa using Nat.lt_of_succ_lt_succ (by simpa using hj))
        (fun m r hm hr => hbefore (m + 1) r (by omega) (by simpa using hr))
        (fun r hr => hfail r (by simpa using hr))
      rw [hrec]
      have : index + 1 + j' = index + (j' + 1) := by omega
      rw [this]

theorem renderShape_append (l r : List Seg) :
    renderShape (l ++ r) = renderShape l ++ renderShape r := by
  induction l with
  | nil => rfl
  | cons seg rest ih =>
    show seg.render ++ renderShape (rest ++ r) = (seg.render ++ renderShape rest) ++ renderShape r
    rw [ih, List.append_assoc]

theorem occursL_renderShape_tok (sh : List Seg) (name : Str)
    (h : Seg.tok name ∈ sh) :
    occursL (placeholderOf name) (renderShape sh) = true := by
  obtain ⟨s, t, rfl⟩ := List.append_of_mem h
  rw [renderShape_append]
  show occursL _ (renderShape s ++ (placeholderOf name ++ renderShape t)) = true
  exact occursL_append_self (placeholderOf name) (renderShape s) (renderShape t)

theorem substAll_mem_tok (f : Str → Option Str) (sh : List Seg) (name : Str)
    (hmem : Seg.tok name ∈ sh) (hnone : f name = none) :
    Seg.tok name ∈ substAll f sh := by
  have hmap := List.mem_map_of_mem (fun seg => match seg with
    | Seg.lit s => Seg.lit s
    | Seg.tok j => match f j with
      | some v => Seg.lit v
      | none => Seg.tok j) hmem
  unfold substAll
  simpa [hnone] using hmap

theorem entryName_blank (ftpl : Str) (cols : List Str) (index : Nat) (cells : List Cell)
    (hblank : isBlank (expand_filename_template ftpl (cols.zip cells)) = true) :
    entryName ftpl cols index cells = eintragFallback index ++ (".docx").data := by
  show (if isBlank (expand_filename_template ftpl (cols.zip cells))
    then eintragFallback index
    else expand_filename_template ftpl (cols.zip cells)) ++ (".docx").data = _
  rw [if_pos hblank]

/-- With a renderer that never fails, a run over parsed input succeeds
with exactly the per-row archive. -/
theorem mainGenerate_ok (renderOk : Bytes → List (Str × Cell) → Bytes)
    (tpl : Bytes) (csvText ftpl : Str) (cols : List Str) (rows : List (List Cell))
    (h : read_csv csvText = .ok (cols, rows)) :
    mainGenerate (okWrap renderOk) (some tpl) (some csvText) ftpl =
      .success (archiveFrom renderOk tpl ftpl cols rows 0) := by
  show (match read_csv csvText with
    | Except.error _ => Outcome.csvError
    | Except.ok (cols, rows) => processRows (okWrap renderOk) tpl ftpl cols rows 0 []) =
    Outcome.success (archiveFrom renderOk tpl ftpl cols rows 0)
  rw [h]
  show processRows (okWrap renderOk) tpl ftpl cols rows 0 [] = _
  rw [processRows_ok]
  rfl

/-- Claim C10: the membership guard before replacement in
`expand_filename_template` is redundant: for every template string and
every context, the function returns the same result as the variant that
unconditionally applies the replacement for every key. -/
theorem claim10_guard_redundant (t : Str) (ctx : List (Str × Cell)) :
    expand_filename_template t ctx = expandUnconditional t ctx :=
  expand_eq_unconditional t ctx

/-- Claim C6, counterexample: with context x to "\x7by\x7d", y to "2"
(in that order) the occurrence of the token of x in the template is not
replaced by x's value: the inserted value is itself rewritten by the
later key, so the output is "2", not "\x7by\x7d". -/
theorem claim6_counterexample :
    expand_filename_template (("\x7bx\x7d").data)
      [(("x").data, Cell.str (("\x7by\x7d").data)), (("y").data, Cell.str (("2").data))] =
      ("2").data ∧
    ("2").data ≠ ("\x7by\x7d").data := by decide

/-- Claim C6, amended: for a template made of brace-free literals and
tokens, with brace-free keys and values, the output is the template with
every token bound in the context replaced by that key's stringified
value and every other token left verbatim. -/
theorem claim6_tokens_replaced (sh : List Seg) (ctx : List (Str × Cell))
    (hsh : shapeWF sh = true) (hctx : ctxWF ctx = true) :
    expand_filename_template (renderShape sh) ctx =
      renderShape (substAll (fun k => lookupStr k ctx) sh) :=
  expand_render sh ctx hsh hctx

/-- Claim C6, witness: the spec's own example expand("A_\x7bx\x7d_\x7by\x7d",
x to 1, y to 2) = "A_1_2", obtained from the amended theorem. -/
theorem claim6_tokens_replaced_witness :
    expand_filename_template (("A_\x7bx\x7d_\x7by\x7d").data)
      [(("x").data, Cell.str (("1").data)), (("y").data, Cell.str (("2").data))] =
      ("A_1_2").data := by
  have h := claim6_tokens_replaced
    [Seg.lit (("A_").data), Seg.tok (("x").data), Seg.lit (("_").data), Seg.tok (("y").data)]
    [(("x").data, Cell.str (("1").data)), (("y").data, Cell.str (("2").data))]
    (by decide) (by decide)
  rw [show renderShape
      [Seg.lit (("A_").data), Seg.tok (("x").data), Seg.lit (("_").data), Seg.tok (("y").data)] =
      ("A_\x7bx\x7d_\x7by\x7d").data from by decide] at h
  rw [h]
  decide

/-- Claim C5, counterexample: a context key containing a closing brace
can consume an unknown token: the template contains the token of name
"missing", no key equals "missing", yet the token is gone from the
output. -/
theorem claim5_counterexample :
    expand_filename_template (("A_\x7bmissing\x7dB\x7d").data)
      [(("missing\x7dB").data, Cell.str (("V").data))] = ("A_V").data ∧
    occursL (placeholderOf (("missing").data)) (("A_\x7bmissing\x7dB\x7d").data) = true ∧
    ("missing").data ≠ ("missing\x7dB").data ∧
    occursL (placeholderOf (("missing").data)) (("A_V").data) = false := by decide

/-- Claim C5, amended: on a well-formed template with a well-formed
context, a token whose name is bound to no context key survives
verbatim in the output. -/
theorem claim5_unknown_token_kept (sh : List Seg) (ctx : List (Str × Cell)) (name : Str)
    (hsh : shapeWF sh = true) (hctx : ctxWF ctx = true)
    (hmem : Seg.tok name ∈ sh) (hnone : lookupStr name ctx = none) :
    occursL (placeholderOf name) (expand_filename_template (renderShape sh) ctx) = true := by
  rw [expand_render sh ctx hsh hctx]
  exact occursL_renderShape_tok _ name
    (substAll_mem_tok (fun k => lookupStr k ctx) sh name hmem hnone)

/-- Claim C5, witness: the spec's own example, expand("A_\x7bmissing\x7d",
x to 1) keeps the unknown token. -/
theorem claim5_unknown_token_kept_witness :
    occursL (placeholderOf (("missing").data))
      (expand_filename_template (("A_\x7bmissing\x7d").data)
        [(("x").data, Cell.str (("1").data))]) = true := by
  have h := claim5_unknown_token_kept
    [Seg.lit (("A_").data), Seg.tok (("missing").data)]
    [(("x").data, Cell.str (("1").data))] (("missing").data)
    (by decide) (by decide) (by decide) (by decide)
  rw [show renderShape [Seg.lit (("A_").data), Seg.tok (("missing").data)] =
    ("A_\x7bmissing\x7d").data from by decide] at h
  exact h

/-- Claim C4, counterexample: two permutations of the same
duplicate-free context give different outputs when one value contains
another key's placeholder. -/
theorem claim4_counterexample :
    (([(("a").data, Cell.str (("\x7bb\x7d").data)), (("b").data, Cell.str (("X").data))] :
        List (Str × Cell)).Perm
      [(("b").data, Cell.str (("X").data)), (("a").data, Cell.str (("\x7bb\x7d").data))]) ∧
    (List.map Prod.fst
      [(("a").data, Cell.str (("\x7bb\x7d").data)), (("b").data, Cell.str (("X").data))]).Nodup ∧
    expand_filename_template (("\x7ba\x7d").data)
      [(("a").data, Cell.str (("\x7bb\x7d").data)), (("b").data, Cell.str (("X").data))] ≠
    expand_filename_template (("\x7ba\x7d").data)
      [(("b").data, Cell.str (("X").data)), (("a").data, Cell.str (("\x7bb\x7d").data))] := by
  refine ⟨List.Perm.swap _ _ _, by decide, by decide⟩

/-- Claim C4, amended: on a well-formed template, for a well-formed
context with distinct keys, the result does not depend on the iteration
order: any permutation of the key-value pairs gives the same output. -/
theorem claim4_order_independent (sh : List Seg) (ctx ctx' : List (Str × Cell))
    (hsh : shapeWF sh = true) (hctx : ctxWF ctx = true)
    (hnd : (ctx.map Prod.fst).Nodup) (hperm : ctx.Perm ctx') :
    expand_filename_template (renderShape sh) ctx =
      expand_filename_template (renderShape sh) ctx' := by
  rw [expand_render sh ctx hsh hctx,
    expand_render sh ctx' hsh (ctxWF_perm ctx ctx' hperm hctx)]
  have hf : (fun k => lookupStr k ctx) = (fun k => lookupStr k ctx') :=
    funext (fun k => lookupStr_perm ctx ctx' hperm hnd k)
  rw [hf]

/-- Claim C4, witness: swapping the two keys of the spec's example
context leaves the output unchanged. -/
theorem claim4_order_independent_witness :
    expand_filename_template (("A_\x7bx\x7d_\x7by\x7d").data)
      [(("x").data, Cell.str (("1").data)), (("y").data, Cell.str (("2").data))] =
    expand_filename_template (("A_\x7bx\x7d_\x7by\x7d").data)
      [(("y").data, Cell.str (("2").data)), (("x").data, Cell.str (("1").data))] := by
  have h := claim4_order_independent
    [Seg.lit (("A_").data), Seg.tok (("x").data), Seg.lit (("_").data), Seg.tok (("y").data)]
    [(("x").data, Cell.str (("1").data)), (("y").data, Cell.str (("2").data))]
    [(("y").data, Cell.str (("2").data)), (("x").data, Cell.str (("1").data))]
    (by decide) (by decide) (by decide) (List.Perm.swap _ _ _)
  rw [show renderShape
      [Seg.lit (("A_").data), Seg.tok (("x").data), Seg.lit (("_").data), Seg.tok (("y").data)] =
      ("A_\x7bx\x7d_\x7by\x7d").data from by decide] at h
  exact h

/-- Claim C1, counterexample: two rows that expand to the same filename
produce two archive entries with the same name, so the set of entry
names has duplicates. -/
theorem claim1_counterexample :
    mainGenerate (okWrap (fun _ _ => [])) (some [])
      (some (("Nachname;Vorname\nMeier;Bob\nMeier;Bob").data))
      (("Dokument_\x7bNachname\x7d_\x7bVorname\x7d").data) =
      .success [(("Dokument_Meier_Bob.docx").data, []),
        (("Dokument_Meier_Bob.docx").data, [])] ∧
    ¬ ([("Dokument_Meier_Bob.docx").data,
        ("Dokument_Meier_Bob.docx").data] : List Str).Nodup := by decide

/-- Claim C1, amended: with no render failures the orchestrator writes
exactly one entry per row, in source order; names can repeat. -/
theorem claim1_entries_per_row (renderOk : Bytes → List (Str × Cell) → Bytes)
    (tpl : Bytes) (csvText ftpl : Str) (cols : List Str) (rows : List (List Cell))
    (h : read_csv csvText = .ok (cols, rows)) :
    mainGenerate (okWrap renderOk) (some tpl) (some csvText) ftpl =
      .success (archiveFrom renderOk tpl ftpl cols rows 0) ∧
    (archiveFrom renderOk tpl ftpl cols rows 0).length = rows.length :=
  ⟨mainGenerate_ok renderOk tpl csvText ftpl cols rows h,
    archiveFrom_length renderOk tpl ftpl cols rows 0⟩

/-- Claim C1, witness: a two-row run produces the two-entry archive. -/
theorem claim1_entries_per_row_witness :
    mainGenerate (okWrap (fun _ _ => [])) (some []) (some (("a;b\n1;2\n3;4").data))
      (("N_\x7ba\x7d").data) =
      .success (archiveFrom (fun _ _ => []) [] (("N_\x7ba\x7d").data)
        [("a").data, ("b").data]
        [[Cell.str (("1").data), Cell.str (("2").data)],
         [Cell.str (("3").data), Cell.str (("4").data)]] 0) ∧
    (archiveFrom (fun _ _ => []) [] (("N_\x7ba\x7d").data)
        [("a").data, ("b").data]
        [[Cell.str (("1").data), Cell.str (("2").data)],
         [Cell.str (("3").data), Cell.str (("4").data)]] 0).length = 2 := by
  have h := claim1_entries_per_row (fun _ _ => []) [] (("a;b\n1;2\n3;4").data)
    (("N_\x7ba\x7d").data) [("a").data, ("b").data]
    [[Cell.str (("1").data), Cell.str (("2").data)],
     [Cell.str (("3").data), Cell.str (("4").data)]] (by decide)
  exact ⟨h.1, h.2⟩

/-- Claim C2, counterexample: a blank expansion falls back to
"Eintrag_0", so the entry is "Eintrag_0.docx", not "Entry_0.docx". -/
theorem claim2_counterexample :
    mainGenerate (okWrap (fun _ _ => [])) (some []) (some (("a;b\n1;2").data)) [] =
      .success [(("Eintrag_0.docx").data, [])] ∧
    ("Eintrag_0.docx").data ≠ ("Entry_0.docx").data := by decide

/-- Claim C2, amended: when the expanded filename of the row at position
i is blank or whitespace-only, the i-th archive entry is named exactly
"Eintrag_" followed by i and ".docx". -/
theorem claim2_blank_fallback (renderOk : Bytes → List (Str × Cell) → Bytes)
    (tpl : Bytes) (csvText ftpl : Str) (cols : List Str) (rows : List (List Cell))
    (i : Nat) (cells : List Cell)
    (h : read_csv csvText = .ok (cols, rows))
    (hi : rows[i]? = some cells)
    (hblank : isBlank (expand_filename_template ftpl (cols.zip cells)) = true) :
    mainGenerate (okWrap renderOk) (some tpl) (some csvText) ftpl =
      .success (archiveFrom renderOk tpl ftpl cols rows 0) ∧
    ((archiveFrom renderOk tpl ftpl cols rows 0).map Prod.fst)[i]? =
      some (("Eintrag_").data ++ (toString i).data ++ (".docx").data) := by
  refine ⟨mainGenerate_ok renderOk tpl csvText ftpl cols rows h, ?_⟩
  rw [List.getElem?_map, archiveFrom_getElem? renderOk tpl ftpl cols rows 0 i cells hi]
  simp only [Option.map_some']
  rw [show (0 : Nat) + i = i from by omega, entryName_blank ftpl cols i cells hblank]
  simp [eintragFallback]

/-- Claim C2, witness: the empty filename template expands blank, so
row 0 is archived as "Eintrag_0.docx". -/
theorem claim2_blank_fallback_witness :
    mainGenerate (okWrap (fun _ _ => [])) (some []) (some (("a;b\n1;2").data)) [] =
      .success (archiveFrom (fun _ _ => []) [] [] [("a").data, ("b").data]
        [[Cell.str (("1").data), Cell.str (("2").data)]] 0) ∧
    ((archiveFrom (fun _ _ => []) [] [] [("a").data, ("b").data]
        [[Cell.str (("1").data), Cell.str (("2").data)]] 0).map Prod.fst)[0]? =
      some (("Eintrag_").data ++ (toString 0).data ++ (".docx").data) :=
  claim2_blank_fallback (fun _ _ => []) [] (("a;b\n1;2").data) []
    [("a").data, ("b").data] [[Cell.str (("1").data), Cell.str (("2").data)]] 0
    [Cell.str (("1").data), Cell.str (("2").data)]
    (by decide) (by decide) (by decide)

/-- Claim C3, counterexample: an empty cell parses as the NaN sentinel,
not as the empty string, and a placeholder referencing it expands to
"nan", not to the empty string. -/
theorem claim3_counterexample :
    read_csv (("a;b\n1;").data) =
      .ok ([("a").data, ("b").data], [[Cell.str (("1").data), Cell.nan]]) ∧
    Cell.nan ≠ Cell.str [] ∧
    expand_filename_template (("\x7bb\x7d").data)
      [(("a").data, Cell.str (("1").data)), (("b").data, Cell.nan)] = ("nan").data ∧
    ("nan").data ≠ ([] : Str) := by decide

/-- Claim C3, amended: the row context maps every declared column to a
value (never absent), but a missing cell carries the NaN sentinel, which
stringifies to "nan" rather than the empty string. -/
theorem claim3_context_columns (content : Str) (cols : List Str) (rows : List (List Cell))
    (h : read_csv content = .ok (cols, rows)) :
    (∀ r ∈ rows, (cols.zip r).map Prod.fst = cols) ∧
    Cell.toStr Cell.nan = ("nan").data := by
  refine ⟨fun r hr => ?_, rfl⟩
  have hlen := read_csv_row_length content cols rows h r hr
  exact List.map_fst_zip cols r (le_of_eq hlen.symm)

/-- Claim C3, witness: the context of the parsed row of "a;b" / "1;"
has exactly the declared columns as keys. -/
theorem claim3_context_columns_witness :
    (([("a").data, ("b").data].zip [Cell.str (("1").data), Cell.nan]).map Prod.fst =
      [("a").data, ("b").data]) ∧
    Cell.toStr Cell.nan = ("nan").data := by
  have h := claim3_context_columns (("a;b\n1;").data) [("a").data, ("b").data]
    [[Cell.str (("1").data), Cell.nan]] (by decide)
  exact ⟨h.1 [Cell.str (("1").data), Cell.nan] (by decide), h.2⟩

/-- Claim C7, counterexample: a header-only source parses to zero data
rows, and the batch then succeeds with an empty archive instead of
failing with a warning. -/
theorem claim7_counterexample :
    mainGenerate (okWrap (fun _ _ => [])) (some []) (some (("a;b").data)) (("X").data) =
      .success [] ∧
    Outcome.success [] ≠ Outcome.warnedMissing := by decide

/-- Claim C7, amended: when both inputs are present and the source
parses to zero data rows, the batch completes successfully with an
empty archive (no warning, no failure), for any renderer. -/
theorem claim7_zero_rows_success (render : Bytes → List (Str × Cell) → Except Unit Bytes)
    (tpl : Bytes) (csvText ftpl : Str) (cols : List Str)
    (h : read_csv csvText = .ok (cols, [])) :
    mainGenerate render (some tpl) (some csvText) ftpl = .success [] := by
  show (match read_csv csvText with
    | Except.error _ => Outcome.csvError
    | Except.ok (cols, rows) => processRows render tpl ftpl cols rows 0 []) =
    Outcome.success []
  rw [h]
  rfl

/-- Claim C7, witness: header-only input yields the empty archive even
under a renderer that always raises (no row is ever rendered). -/
theorem claim7_zero_rows_success_witness :
    mainGenerate (fun _ _ => .error ()) (some []) (some (("a;b").data)) (("X").data) =
      .success [] :=
  claim7_zero_rows_success (fun _ _ => .error ()) [] (("a;b").data) (("X").data)
    [("a").data, ("b").data] (by decide)

/-- Claim C8: if rendering succeeds for every row before position j and
raises at position j, the whole batch aborts with that exception: the
outcome carries no archive and no later row is processed (the renderer
is only constrained up to row j). -/
theorem claim8_render_failure_aborts (render : Bytes → List (Str × Cell) → Except Unit Bytes)
    (tpl : Bytes) (csvText ftpl : Str) (cols : List Str) (rows : List (List Cell)) (j : Nat)
    (h : read_csv csvText = .ok (cols, rows)) (hj : j < rows.length)
    (hbefore : ∀ m r, m < j → rows[m]? = some r → ∃ b, render tpl (cols.zip r) = .ok b)
    (hfail : ∀ r, rows[j]? = some r → render tpl (cols.zip r) = .error ()) :
    mainGenerate render (some tpl) (some csvText) ftpl = .renderFailure j := by
  show (match read_csv csvText with
    | Except.error _ => Outcome.csvError
    | Except.ok (cols, rows) => processRows render tpl ftpl cols rows 0 []) =
    Outcome.renderFailure j
  rw [h]
  show processRows render tpl ftpl cols rows 0 [] = _
  have hrun := processRows_fail render tpl ftpl cols rows 0 [] j hj hbefore hfail
  simpa using hrun

/-- Claim C8, witness: a renderer that raises on the first row aborts a
two-row batch at row 0. -/
theorem claim8_render_failure_aborts_witness :
    mainGenerate (fun _ _ => .error ()) (some []) (some (("a;b\n1;2\n3;4").data))
      (("X").data) = .renderFailure 0 :=
  claim8_render_failure_aborts (fun _ _ => .error ()) [] (("a;b\n1;2\n3;4").data)
    (("X").data) [("a").data, ("b").data]
    [[Cell.str (("1").data), Cell.str (("2").data)],
     [Cell.str (("3").data), Cell.str (("4").data)]] 0
    (by decide) (by decide)
    (fun m r hm _ => absurd hm (by omega))
    (fun r _ => rfl)

/-- Claim C9: if the template or the CSV upload is absent at trigger
time, the handler warns and returns at once: the outcome is the warning
for every renderer, CSV content and filename template — no parsing, no
row processing, no archive, no exception. -/
theorem claim9_missing_inputs (render : Bytes → List (Str × Cell) → Except Unit Bytes)
    (tplOpt : Option Bytes) (csvOpt : Option Str) (ftpl : Str)
    (h : tplOpt = none ∨ csvOpt = none) :
    mainGenerate render tplOpt csvOpt ftpl = .warnedMissing := by
  rcases h with h | h
  · subst h
    cases csvOpt <;> rfl
  · subst h
    cases tplOpt <;> rfl

/-- Claim C9, witness: a missing template upload yields the warning. -/
theorem claim9_missing_inputs_witness :
    mainGenerate (okWrap (fun _ _ => [])) none (some (("a;b\n1;2").data)) (("X").data) =
      .warnedMissing :=
  claim9_missing_inputs (okWrap (fun _ _ => [])) none (some (("a;b\n1;2").data))
    (("X").data) (Or.inl rfl)
